import Mathlib

/-!
Verification development for a small image-processing repository holding two
scripts: `generate_icons.py` (background/hole removal, trim, proportional
resize-and-center onto square canvases, save) and
`public/Marketing/slice_personas.py` (slice one composite image into four
quadrant files).

The image library primitives used by the scripts (PIL `Image` / `ImageDraw`)
are embedded shallowly: an image is a width, a height, a mode tag and a total
pixel function on integer coordinates; `ImageDraw.floodfill` is the
worklist flood fill of the library (fill the 4-connected region whose colour
is within a 1-norm distance `thresh` of the seed's original colour);
`Image.getbbox` is the bounding box of the pixels with nonzero alpha;
`Image.crop` pads out-of-bounds regions with zero pixels and never clamps.
Resampling kernels and file encoders are numeric black boxes the scripts never
inspect, so they are taken as parameters (fields of `Env`).
-/

/-- An RGBA pixel; channels are byte values. -/
structure Pix where
  r : ℕ
  g : ℕ
  b : ℕ
  a : ℕ
deriving DecidableEq

/-- The fully transparent pixel `(0, 0, 0, 0)` used as flood value. -/
def clearPix : Pix := ⟨0, 0, 0, 0⟩

/-- PIL pixel modes (only the distinction RGBA / not-RGBA matters here). -/
inductive Mode where
  | RGBA
  | RGB
  | P
  | L
deriving DecidableEq

/-- An in-memory raster: dimensions, mode and a total pixel function.
Coordinates are integers so that out-of-bounds crop boxes can be expressed;
only the values at `0 ≤ x < width`, `0 ≤ y < height` are meaningful. -/
structure Img where
  width : ℕ
  height : ℕ
  mode : Mode
  pix : ℤ → ℤ → Pix

/-- Bounds check for a coordinate pair. -/
def Img.inBounds (img : Img) (x y : ℤ) : Prop :=
  0 ≤ x ∧ x < img.width ∧ 0 ≤ y ∧ y < img.height

instance (img : Img) (x y : ℤ) : Decidable (img.inBounds x y) := by
  unfold Img.inBounds; infer_instance

/-- Overwrite one pixel. -/
def Img.setPix (img : Img) (x y : ℤ) (v : Pix) : Img :=
  { img with pix := fun a b => if a = x ∧ b = y then v else img.pix a b }

/-- `Image.convert("RGBA")`: tag the image RGBA; a source without an alpha
channel becomes fully opaque. -/
def Img.convertRGBA (img : Img) : Img :=
  { img with
    mode := Mode.RGBA
    pix := fun x y =>
      let p := img.pix x y
      if img.mode = Mode.RGBA then p else { p with a := 255 } }

/-- `Image.crop((l, t, r, b))`: the box is half-open, the result has size
`(r - l, b - t)`, and regions outside the source are zero-filled.  The
coordinates are used exactly as given - there is no clamping. -/
def Img.crop (img : Img) (l t r b : ℤ) : Img :=
  { width := (r - l).toNat
    height := (b - t).toNat
    mode := img.mode
    pix := fun x y =>
      if img.inBounds (l + x) (t + y) then img.pix (l + x) (t + y) else clearPix }

/-- `Image.new("RGBA", (w, h), c)`. -/
def Img.new (w h : ℕ) (c : Pix) : Img :=
  { width := w, height := h, mode := Mode.RGBA, pix := fun _ _ => c }

/-- `Image.paste(src, (xp, yp))` (no mask): copy the source rectangle, alpha
included, over the canvas at the given offset. -/
def Img.paste (canvas src : Img) (xp yp : ℤ) : Img :=
  { canvas with
    pix := fun x y =>
      if src.inBounds (x - xp) (y - yp) then src.pix (x - xp) (y - yp)
      else canvas.pix x y }

/-- The 1-norm colour distance of the library's flood fill, over all four
channels of an RGBA pixel. -/
def colorDiff (p q : Pix) : ℕ :=
  ((p.r : ℤ) - q.r).natAbs + ((p.g : ℤ) - q.g).natAbs +
    ((p.b : ℤ) - q.b).natAbs + ((p.a : ℤ) - q.a).natAbs

/-- One worklist examination step of the flood fill: if the neighbour is in
bounds and its current colour is within `thresh` of the seed's original
colour, fill it and push it. -/
def floodVisit (bg val : Pix) (thresh : ℕ)
    (st : List (ℤ × ℤ) × Img) (q : ℤ × ℤ) : List (ℤ × ℤ) × Img :=
  if st.2.inBounds q.1 q.2 ∧ colorDiff (st.2.pix q.1 q.2) bg ≤ thresh then
    (q :: st.1, st.2.setPix q.1 q.2 val)
  else st

/-- Fuelled worklist loop of the flood fill.  Each popped coordinate has its
four neighbours examined; a filled pixel takes the fill value, whose distance
from the seed colour exceeds `thresh` (the caller checks this), so no pixel is
filled twice and `width * height + 1` units of fuel suffice. -/
def floodLoop (bg val : Pix) (thresh : ℕ) :
    ℕ → List (ℤ × ℤ) → Img → Img
  | 0, _, img => img
  | _ + 1, [], img => img
  | fuel + 1, (x, y) :: stack, img =>
      let st := [(x + 1, y), (x - 1, y), (x, y + 1), (x, y - 1)].foldl
        (floodVisit bg val thresh) (stack, img)
      floodLoop bg val thresh fuel st.1 st.2

/-- `ImageDraw.floodfill(img, (x, y), val, thresh)`: a seed outside the image
is ignored; a seed whose colour is already within `thresh` of the fill value
is ignored; otherwise the 4-connected region of colours within `thresh` of the
seed's original colour is overwritten with `val`. -/
def ImageDraw_floodfill (img : Img) (x y : ℤ) (val : Pix) (thresh : ℕ) : Img :=
  if img.inBounds x y then
    let bg := img.pix x y
    if colorDiff val bg ≤ thresh then img
    else floodLoop bg val thresh (img.width * img.height + 1) [(x, y)]
      (img.setPix x y val)
  else img

/-- `is_near_white(pixel, fuzz)`: each of R, G, B strictly exceeds
`255 - fuzz` (integer subtraction, as in the source). -/
def is_near_white (pixel : Pix) (fuzz : ℕ) : Prop :=
  255 - (fuzz : ℤ) < (pixel.r : ℤ) ∧ 255 - (fuzz : ℤ) < (pixel.g : ℤ) ∧
    255 - (fuzz : ℤ) < (pixel.b : ℤ)

instance (pixel : Pix) (fuzz : ℕ) : Decidable (is_near_white pixel fuzz) := by
  unfold is_near_white; infer_instance

/-- `scan_depth = int(height * 0.4)`.  The literal `0.4` is exactly `2/5`
after scaling, and `int(height * 0.4) = (2 * height) / 5` (floor): the exact
value `2h/5` is a multiple of `1/5`, so the sub-ulp excess of the binary
double nearest `0.4` can never carry the product across an integer. -/
def scanDepth (height : ℕ) : ℕ := (2 * height) / 5

/-- The pixel at `(cx, y)` is a hole candidate: still has nonzero alpha and is
near-white (the scan's `if is_near_white(pixel, fuzz) and pixel[3] > 0`). -/
def holeQual (img : Img) (fuzz : ℕ) (cx : ℤ) (y : ℕ) : Prop :=
  is_near_white (img.pix cx (y : ℤ)) fuzz ∧ 0 < (img.pix cx (y : ℤ)).a

instance (img : Img) (fuzz : ℕ) (cx : ℤ) (y : ℕ) :
    Decidable (holeQual img fuzz cx y) := by
  unfold holeQual; infer_instance

/-- The scan loop `for y in range(scan_depth): ... break`, started at row
`y`: return the first row `< d` whose centerline pixel qualifies, if any.
The structural `fuel` argument only needs to cover the remaining rows
(`d - y` of them); the callers pass `d`. -/
def holeScanFrom (img : Img) (fuzz : ℕ) (cx : ℤ) (d : ℕ) :
    ℕ → ℕ → Option ℕ
  | 0, _ => none
  | fuel + 1, y =>
    if y < d then
      if holeQual img fuzz cx y then some y
      else holeScanFrom img fuzz cx d fuel (y + 1)
    else none

/-- Step 2 of `remove_background_and_inner_holes`: scan the vertical
centerline over the top 40% of the height; the first qualifying pixel seeds
one flood fill to transparent, then the scan stops. -/
def holeHunt (img : Img) (fuzz : ℕ) : Img :=
  let center_x : ℤ := (img.width / 2 : ℕ)
  match holeScanFrom img fuzz center_x (scanDepth img.height)
      (scanDepth img.height) 0 with
  | some y => ImageDraw_floodfill img center_x (y : ℤ) clearPix fuzz
  | none => img

/-- Step 1 of `remove_background_and_inner_holes`: flood each of the four
corners to transparent. -/
def cornerFloods (img : Img) (fuzz : ℕ) : Img :=
  let width := img.width
  let height := img.height
  let i1 := ImageDraw_floodfill img 0 0 clearPix fuzz
  let i2 := ImageDraw_floodfill i1 ((width : ℤ) - 1) 0 clearPix fuzz
  let i3 := ImageDraw_floodfill i2 0 ((height : ℤ) - 1) clearPix fuzz
  ImageDraw_floodfill i3 ((width : ℤ) - 1) ((height : ℤ) - 1) clearPix fuzz

/-- The image after convert and corner floods - the state the hole-hunt scan
reads. -/
def bgFlooded (img : Img) (fuzz : ℕ) : Img :=
  cornerFloods img.convertRGBA fuzz

/-- The centerline column `center_x = width // 2` of the hole hunt. -/
def holeSeedX (img : Img) : ℤ := ((img.width / 2 : ℕ) : ℤ)

/-- The image after convert, corner floods and the hole hunt - the state on
which `img.getbbox()` is evaluated. -/
def floodedImage (img : Img) (fuzz : ℕ) : Img :=
  holeHunt (bgFlooded img fuzz) fuzz

/-- The in-bounds points with nonzero alpha (the content of an RGBA image). -/
def contentPts (img : Img) : Finset (ℕ × ℕ) :=
  (Finset.range img.width ×ˢ Finset.range img.height).filter
    (fun p => 0 < (img.pix (p.1 : ℤ) (p.2 : ℤ)).a)

/-- `Image.getbbox()`: `None` on an image with no content, else the tight
half-open box `(left, top, right, bottom)` around the nonzero-alpha pixels. -/
def Img.getbbox (img : Img) : Option (ℤ × ℤ × ℤ × ℤ) :=
  if h : (contentPts img).Nonempty then
    some ((((contentPts img).image Prod.fst).min' (h.image _) : ℕ),
          (((contentPts img).image Prod.snd).min' (h.image _) : ℕ),
          ((((contentPts img).image Prod.fst).max' (h.image _) : ℕ) : ℤ) + 1,
          ((((contentPts img).image Prod.snd).max' (h.image _) : ℕ) : ℤ) + 1)
  else none

/-- `remove_background_and_inner_holes(img, fuzz=60)`: convert to RGBA, flood
the four corners, hunt one hole on the top-center scanline, then crop to the
content bounding box inflated by one pixel each way (no clamping); a fully
transparent image is returned as is. -/
def remove_background_and_inner_holes (img : Img) (fuzz : ℕ := 60) : Img :=
  let img3 := floodedImage img fuzz
  match img3.getbbox with
  | some (l, t, r, b) => img3.crop (l - 1) (t - 1) (r + 1) (b + 1)
  | none => img3

/-- The four named crop boxes of `slice_image_into_quadrants`:
`mid_x = width // 2`, `mid_y = height // 2`, and the fixed rectangles
top-left, top-right, bottom-left, bottom-right. -/
def sliceCuts (img : Img) : List (String × Img) :=
  let mid_x : ℤ := (img.width / 2 : ℕ)
  let mid_y : ℤ := (img.height / 2 : ℕ)
  [("Ned_The_Pink_Cloud.jpg", img.crop 0 0 mid_x mid_y),
   ("Lisa_The_Service_Pro.jpg", img.crop mid_x 0 (img.width : ℤ) mid_y),
   ("Walt_The_Zen_Master.jpg", img.crop 0 mid_y mid_x (img.height : ℤ)),
   ("David_The_Fresh_Start.jpg", img.crop mid_x mid_y (img.width : ℤ) (img.height : ℤ))]

/-- Python `int(...)` on a nonnegative-or-negative rational: truncation toward
zero (`num tdiv den`). -/
def pyInt (q : ℚ) : ℤ := q.num.tdiv q.den

/-- The per-icon geometry of `generate_pwa_icons` (lines 86-101 of the
source): inner side `max_dim = int(size * (1 - padding_pct * 2))`, the
aspect-ratio preserving resize dimensions, and the centering offsets computed
with Python floor division `//`. -/
structure Geo where
  max_dim : ℤ
  new_w : ℤ
  new_h : ℤ
  x_pos : ℤ
  y_pos : ℤ

/-- Literal translation of the geometry arithmetic of the icon loop body. -/
def iconGeometry (w h : ℕ) (size : ℕ) (padding_pct : ℚ) : Geo :=
  let max_dim : ℤ := pyInt ((size : ℚ) * (1 - padding_pct * 2))
  let img_ratio : ℚ := (w : ℚ) / (h : ℚ)
  let wh : ℤ × ℤ :=
    if img_ratio > 1 then (max_dim, pyInt ((max_dim : ℚ) / img_ratio))
    else (pyInt ((max_dim : ℚ) * img_ratio), max_dim)
  { max_dim := max_dim
    new_w := wh.1
    new_h := wh.2
    x_pos := Int.fdiv ((size : ℤ) - wh.1) 2
    y_pos := Int.fdiv ((size : ℤ) - wh.2) 2 }

/-- File contents are byte lists. -/
abbrev Bytes := List ℕ

/-- The local filesystem visible to the scripts: file contents by path, plus
the set of directories (`os.path.exists` is true on either). -/
structure FS where
  files : String → Option Bytes
  dirs : String → Bool

/-- `os.path.exists`. -/
def FS.exists (fs : FS) (p : String) : Bool := (fs.files p).isSome || fs.dirs p

/-- Write (or unconditionally overwrite) one file. -/
def FS.writeFile (fs : FS) (p : String) (data : Bytes) : FS :=
  { fs with files := fun q => if q = p then some data else fs.files q }

/-- `os.makedirs`. -/
def FS.mkdir (fs : FS) (p : String) : FS :=
  { fs with dirs := fun q => if q = p then true else fs.dirs q }

/-- The deterministic external-library black boxes: the image decoder behind
`Image.open`, the LANCZOS resampling kernel behind `Image.resize`, and the
ICO / PNG / JPEG encoders behind `Image.save`; `saveErr` injects the
environment's write failures (permissions, disk) at given paths. -/
structure Env where
  decode : Bytes → Except String Img
  resample : Img → ℤ → ℤ → ℤ → ℤ → Pix
  encodeICO : Img → Bytes
  encodePNG : Img → Bytes
  encodeJPG : Img → Bytes
  saveErr : String → Option String

/-- `img.resize((new_w, new_h), Image.Resampling.LANCZOS)`: a fresh image of
the requested size whose pixels come from the environment's kernel. -/
def Img.resize (env : Env) (img : Img) (nw nh : ℤ) : Img :=
  { width := nw.toNat
    height := nh.toNat
    mode := img.mode
    pix := fun x y => env.resample img nw nh x y }

/-- `Image.open(path)` on our filesystem: the path exists (the callers check
first) but may be a directory or fail to decode. -/
def openImage (env : Env) (fs : FS) (p : String) : Except String Img :=
  match fs.files p with
  | none => Except.error "not a file"
  | some data => env.decode data

/-- The outcome of running one script routine: the filesystem after the run,
the printed messages in order, and the exception escaping the routine, if
any. -/
structure RunResult where
  fs : FS
  msgs : List String
  exc : Option String

/-- The hard-coded list of five icon specs `(filename, size, padding)`. -/
def icons : List (String × ℕ × ℚ) :=
  [("favicon.ico", 64, 0.0),
   ("apple-touch-icon-180x180.png", 180, 0.0),
   ("pwa-192x192.png", 192, 0.0),
   ("pwa-512x512.png", 512, 0.0),
   ("maskable-icon-512x512.png", 512, 0.10)]

/-- The state threaded through the icon loop: the shared processed source
image, the filesystem, the messages, and the exception in flight (a raised
exception aborts the remaining iterations and escapes, as the loop is outside
the `try`). -/
structure GenState where
  img : Img
  fs : FS
  msgs : List String
  exc : Option String

/-- The canvas built for one icon spec: fresh transparent square canvas, the
geometry arithmetic, the aspect-preserving resize, and the centred paste.
Only the canvas is written to; the source image is only read. -/
def iconCanvas (env : Env) (img : Img) (spec : String × ℕ × ℚ) : Img :=
  let size := spec.2.1
  let canvas := Img.new size size ⟨255, 255, 255, 0⟩
  let g := iconGeometry img.width img.height size spec.2.2
  let resized_logo := Img.resize env img g.new_w g.new_h
  canvas.paste resized_logo g.x_pos g.y_pos

/-- The bytes saved for one icon spec: the canvas through the ICO encoder for
`.ico` filenames, else through the optimized PNG encoder. -/
def iconBytes (env : Env) (img : Img) (spec : String × ℕ × ℚ) : Bytes :=
  if spec.1.endsWith ".ico" then env.encodeICO (iconCanvas env img spec)
  else env.encodePNG (iconCanvas env img spec)

/-- One iteration of the icon loop: build the canvas from the shared source
image and save it into `pwa-assets/`; a raised save error aborts the loop. -/
def genIconStep (env : Env) (st : GenState) (spec : String × ℕ × ℚ) : GenState :=
  match st.exc with
  | some _ => st
  | none =>
    let save_path := "pwa-assets/" ++ spec.1
    match env.saveErr save_path with
    | some e => { st with exc := some e }
    | none =>
      { st with fs := st.fs.writeFile save_path (iconBytes env st.img spec)
                msgs := st.msgs ++ ["Created: " ++ spec.1] }

/-- The icon loop `for filename, size, padding_pct in icons`. -/
def genLoop (env : Env) (specs : List (String × ℕ × ℚ)) (st : GenState) : GenState :=
  specs.foldl (genIconStep env) st

/-- The tail of `generate_pwa_icons` after a successful open: background and
hole removal, on-demand output directory, then the icon loop (outside the
`try`, so its failures escape). -/
def genAfterOpen (env : Env) (source_file : String) (fs : FS) (img0 : Img) :
    RunResult :=
  let img := remove_background_and_inner_holes img0 60
  let fs1 := if fs.exists "pwa-assets" then fs else fs.mkdir "pwa-assets"
  let st := genLoop env icons
    { img := img
      fs := fs1
      msgs := ["Opening " ++ source_file ++ "...",
               "Background and Handle removed.",
               "Generating Transparent Icons..."]
      exc := none }
  { fs := st.fs
    msgs := st.msgs ++ (if st.exc = none then ["Done!"] else [])
    exc := st.exc }

/-- `generate_pwa_icons(source_file)`: existence check, guarded open, then
the processing and saving tail. -/
def generate_pwa_icons (env : Env) (source_file : String) (fs : FS) : RunResult :=
  if fs.exists source_file = false then
    { fs := fs
      msgs := ["Error: Could not find " ++ source_file ++ "."]
      exc := none }
  else
    match openImage env fs source_file with
    | Except.error e =>
      { fs := fs
        msgs := ["Opening " ++ source_file ++ "...",
                 "Error processing image: " ++ e]
        exc := none }
    | Except.ok img0 => genAfterOpen env source_file fs img0

/-- The save loop of the quadrant slicer; a save failure raises, aborting the
remaining saves (already-written files remain). -/
def sliceSaveLoop (env : Env) :
    List (String × Img) → FS → List String → FS × List String × Option String
  | [], fs, msgs => (fs, msgs, none)
  | (filename, persona_img) :: rest, fs, msgs =>
    match env.saveErr filename with
    | some e => (fs, msgs, some e)
    | none =>
      sliceSaveLoop env rest (fs.writeFile filename (env.encodeJPG persona_img))
        (msgs ++ ["Created: " ++ filename])

/-- `slice_image_into_quadrants(image_path)`: existence check, then the whole
body - open, the four crops, and the save loop - inside one
`try ... except Exception`, so any failure is caught and reported, never
propagated. -/
def slice_image_into_quadrants (env : Env) (image_path : String) (fs : FS) :
    RunResult :=
  if fs.exists image_path = false then
    { fs := fs
      msgs := ["Error: Could not find file " ++ image_path]
      exc := none }
  else
    match openImage env fs image_path with
    | Except.error e =>
      { fs := fs
        msgs := ["Processing " ++ image_path ++ "...", "An error occurred: " ++ e]
        exc := none }
    | Except.ok original_img =>
      let res := sliceSaveLoop env (sliceCuts original_img) fs
        ["Processing " ++ image_path ++ "..."]
      match res.2.2 with
      | some e =>
        { fs := res.1, msgs := res.2.1 ++ ["An error occurred: " ++ e], exc := none }
      | none =>
        { fs := res.1
          msgs := res.2.1 ++ ["Success! All 4 personas have been extracted."]
          exc := none }


/-- The top-left quadrant crop of the slicer. -/
def quadTL (img : Img) : Img :=
  img.crop 0 0 ((img.width / 2 : ℕ) : ℤ) ((img.height / 2 : ℕ) : ℤ)

/-- The top-right quadrant crop of the slicer. -/
def quadTR (img : Img) : Img :=
  img.crop ((img.width / 2 : ℕ) : ℤ) 0 (img.width : ℤ) ((img.height / 2 : ℕ) : ℤ)

/-- The bottom-left quadrant crop of the slicer. -/
def quadBL (img : Img) : Img :=
  img.crop 0 ((img.height / 2 : ℕ) : ℤ) ((img.width / 2 : ℕ) : ℤ) (img.height : ℤ)

/-- The bottom-right quadrant crop of the slicer. -/
def quadBR (img : Img) : Img :=
  img.crop ((img.width / 2 : ℕ) : ℤ) ((img.height / 2 : ℕ) : ℤ) (img.width : ℤ)
    (img.height : ℤ)

/-- A concrete 3x3 test image with distinct pixels (used by witnesses). -/
def cimgW : Img :=
  { width := 3, height := 3, mode := Mode.RGB
    pix := fun x y => ⟨x.toNat, y.toNat, 7, 255⟩ }



/-- A concrete 3x3 fully white opaque image: the corner flood clears it all
(used by witnesses). -/
def cimgT : Img :=
  { width := 3, height := 3, mode := Mode.RGBA
    pix := fun _ _ => ⟨255, 255, 255, 255⟩ }

/-- A concrete 3x3 image with black corners and a white interior: the corner
floods clear only the corners and the hole hunt fires at the top center
(used by witnesses). -/
def cimgB : Img :=
  { width := 3, height := 3, mode := Mode.RGBA
    pix := fun x y =>
      if (x = 0 ∨ x = 2) ∧ (y = 0 ∨ y = 2) then ⟨0, 0, 0, 255⟩
      else ⟨255, 255, 255, 255⟩ }

/-- A concrete 3x3 image with black corners, a dark blue top-center pixel and
a white remainder: the corner floods clear only the corners and the hole hunt
finds nothing (used by witnesses). -/
def cimgH : Img :=
  { width := 3, height := 3, mode := Mode.RGBA
    pix := fun x y =>
      if (x = 0 ∨ x = 2) ∧ (y = 0 ∨ y = 2) then ⟨0, 0, 0, 255⟩
      else if x = 1 ∧ y = 0 then ⟨0, 0, 255, 255⟩
      else ⟨255, 255, 255, 255⟩ }

/-- A concrete benign environment (used by witnesses). -/
def envW : Env :=
  { decode := fun _ => Except.ok cimgW
    resample := fun _ _ _ _ _ => clearPix
    encodeICO := fun _ => [1]
    encodePNG := fun _ => [2]
    encodeJPG := fun _ => [3]
    saveErr := fun _ => none }

/-- An environment whose first quadrant-save raises (used by the
counterexample and witnesses). -/
def envFailSlice : Env :=
  { envW with
    saveErr := fun p => if p = "Ned_The_Pink_Cloud.jpg" then some "disk full" else none }

/-- An environment failing the first save of either pipeline (used by
witnesses). -/
def envFailBoth : Env :=
  { envW with
    saveErr := fun p =>
      if p = "Ned_The_Pink_Cloud.jpg" ∨ p = "pwa-assets/favicon.ico"
      then some "disk full" else none }

/-- The empty filesystem (used by witnesses). -/
def fsEmpty : FS := { files := fun _ => none, dirs := fun _ => false }

/-- A filesystem holding just `Logo.png` (used by witnesses). -/
def fsW : FS :=
  { files := fun p => if p = "Logo.png" then some [0] else none
    dirs := fun _ => false }

/-- A filesystem holding just `x.jpg` (used by witnesses and the
counterexample). -/
def fsX : FS :=
  { files := fun p => if p = "x.jpg" then some [0] else none
    dirs := fun _ => false }



/-- Sequential unconditional overwrites of a list of files. -/
def writeAllFS (fs : FS) (l : List (String × Bytes)) : FS :=
  l.foldl (fun a pb => a.writeFile pb.1 pb.2) fs

/-- The five output files of one icon run over a given processed image:
paths under `pwa-assets/` with their encoded bytes. -/
def iconOuts (env : Env) (img : Img) : List (String × Bytes) :=
  icons.map (fun spec => ("pwa-assets/" ++ spec.1, iconBytes env img spec))


-- ===================== Theorems =====================

/-- `scanDepth` agrees with the exact floor of `height * 0.4`. -/
theorem scanDepth_eq_floor (h : ℕ) : (scanDepth h : ℤ) = ⌊(h : ℚ) * (2 / 5)⌋ := by
  have : (h : ℚ) * (2 / 5) = (((2 * h : ℕ) : ℤ) : ℚ) / ((5 : ℕ) : ℚ) := by
    push_cast; ring
  rw [this, Rat.floor_intCast_div_natCast]
  simp [scanDepth, Int.natCast_div]

/-- On a nonnegative argument Python `int(...)` is the floor. -/
theorem pyInt_eq_floor (q : ℚ) (hq : 0 ≤ q) : pyInt q = ⌊q⌋ := by
  have hnum : 0 ≤ q.num := Rat.num_nonneg.mpr hq
  rw [pyInt, Int.tdiv_eq_ediv hnum (Int.ofNat_nonneg q.den), Rat.floor_def]


/-- C3: `slice_image_into_quadrants` produces exactly the four fixed crops at
the floor midpoints; their dimensions are `(W/2, H/2)`, `(W-W/2, H/2)`,
`(W/2, H-H/2)`, `(W-W/2, H-H/2)`; their pixels reproduce the original image
over its whole domain; and for odd `W` (resp. `H`) the right (resp. bottom)
side of the grid is one pixel larger than its opposite. -/
theorem quadrant_slice_spec (img : Img) :
    sliceCuts img = [("Ned_The_Pink_Cloud.jpg", quadTL img),
      ("Lisa_The_Service_Pro.jpg", quadTR img),
      ("Walt_The_Zen_Master.jpg", quadBL img),
      ("David_The_Fresh_Start.jpg", quadBR img)]
    ∧ (quadTL img).width = img.width / 2 ∧ (quadTL img).height = img.height / 2
    ∧ (quadTR img).width = img.width - img.width / 2
    ∧ (quadTR img).height = img.height / 2
    ∧ (quadBL img).width = img.width / 2
    ∧ (quadBL img).height = img.height - img.height / 2
    ∧ (quadBR img).width = img.width - img.width / 2
    ∧ (quadBR img).height = img.height - img.height / 2
    ∧ (∀ x y : ℕ, x < img.width / 2 → y < img.height / 2 →
        (quadTL img).pix (x : ℤ) (y : ℤ) = img.pix (x : ℤ) (y : ℤ))
    ∧ (∀ x y : ℕ, img.width / 2 ≤ x → x < img.width → y < img.height / 2 →
        (quadTR img).pix ((x : ℤ) - ((img.width / 2 : ℕ) : ℤ)) (y : ℤ)
          = img.pix (x : ℤ) (y : ℤ))
    ∧ (∀ x y : ℕ, x < img.width / 2 → img.height / 2 ≤ y → y < img.height →
        (quadBL img).pix (x : ℤ) ((y : ℤ) - ((img.height / 2 : ℕ) : ℤ))
          = img.pix (x : ℤ) (y : ℤ))
    ∧ (∀ x y : ℕ, img.width / 2 ≤ x → x < img.width →
        img.height / 2 ≤ y → y < img.height →
        (quadBR img).pix ((x : ℤ) - ((img.width / 2 : ℕ) : ℤ))
          ((y : ℤ) - ((img.height / 2 : ℕ) : ℤ)) = img.pix (x : ℤ) (y : ℤ))
    ∧ (img.width % 2 = 1 → (quadTR img).width = (quadTL img).width + 1)
    ∧ (img.height % 2 = 1 → (quadBL img).height = (quadTL img).height + 1) := by
  have hwd : img.width / 2 ≤ img.width := Nat.div_le_self _ _
  have hhd : img.height / 2 ≤ img.height := Nat.div_le_self _ _
  refine ⟨rfl, ?_, ?_, ?_, ?_, ?_, ?_, ?_, ?_, ?_, ?_, ?_, ?_, ?_, ?_⟩
  · simp [quadTL, Img.crop]; omega
  · simp [quadTL, Img.crop]; omega
  · simp [quadTR, Img.crop]; omega
  · simp [quadTR, Img.crop]; omega
  · simp [quadBL, Img.crop]; omega
  · simp [quadBL, Img.crop]; omega
  · simp [quadBR, Img.crop]; omega
  · simp [quadBR, Img.crop]; omega
  · intro x y hx hy
    have e1 : (0 : ℤ) + (x : ℤ) = (x : ℤ) := by ring
    have e2 : (0 : ℤ) + (y : ℤ) = (y : ℤ) := by ring
    simp only [quadTL, Img.crop, e1, e2]
    rw [if_pos]
    exact ⟨by positivity, by exact_mod_cast Nat.lt_of_lt_of_le hx hwd,
      by positivity, by exact_mod_cast Nat.lt_of_lt_of_le hy hhd⟩
  · intro x y hx hxw hy
    have e1 : ((img.width / 2 : ℕ) : ℤ) + ((x : ℤ) - ((img.width / 2 : ℕ) : ℤ))
        = (x : ℤ) := by ring
    have e2 : (0 : ℤ) + (y : ℤ) = (y : ℤ) := by ring
    simp only [quadTR, Img.crop, e1, e2]
    rw [if_pos]
    exact ⟨by positivity, by exact_mod_cast hxw,
      by positivity, by exact_mod_cast Nat.lt_of_lt_of_le hy hhd⟩
  · intro x y hx hy hyh
    have e1 : (0 : ℤ) + (x : ℤ) = (x : ℤ) := by ring
    have e2 : ((img.height / 2 : ℕ) : ℤ) + ((y : ℤ) - ((img.height / 2 : ℕ) : ℤ))
        = (y : ℤ) := by ring
    simp only [quadBL, Img.crop, e1, e2]
    rw [if_pos]
    exact ⟨by positivity, by exact_mod_cast Nat.lt_of_lt_of_le hx hwd,
      by positivity, by exact_mod_cast hyh⟩
  · intro x y hx hxw hy hyh
    have e1 : ((img.width / 2 : ℕ) : ℤ) + ((x : ℤ) - ((img.width / 2 : ℕ) : ℤ))
        = (x : ℤ) := by ring
    have e2 : ((img.height / 2 : ℕ) : ℤ) + ((y : ℤ) - ((img.height / 2 : ℕ) : ℤ))
        = (y : ℤ) := by ring
    simp only [quadBR, Img.crop, e1, e2]
    rw [if_pos]
    exact ⟨by positivity, by exact_mod_cast hxw, by positivity, by exact_mod_cast hyh⟩
  · intro hodd
    simp [quadTR, quadTL, Img.crop]; omega
  · intro hodd
    simp [quadBL, quadTL, Img.crop]; omega

/-- C3 witness: the quadrant theorem instantiated on the concrete 3x3 image,
with every hypothesis discharged. -/
theorem quadrant_slice_spec_witness :
    (quadTL cimgW).pix ((0 : ℕ) : ℤ) ((0 : ℕ) : ℤ) = cimgW.pix (0 : ℕ) (0 : ℕ)
    ∧ (quadTR cimgW).pix (((2 : ℕ) : ℤ) - ((cimgW.width / 2 : ℕ) : ℤ)) ((0 : ℕ) : ℤ)
        = cimgW.pix ((2 : ℕ) : ℤ) ((0 : ℕ) : ℤ)
    ∧ (quadTR cimgW).width = (quadTL cimgW).width + 1
    ∧ (quadBL cimgW).height = (quadTL cimgW).height + 1 := by
  obtain ⟨-, -, -, -, -, -, -, -, -, hTL, hTR, -, -, hodd1, hodd2⟩ :=
    quadrant_slice_spec cimgW
  exact ⟨hTL 0 0 (by decide) (by decide), hTR 2 0 (by decide) (by decide) (by decide),
    hodd1 (by decide), hodd2 (by decide)⟩

/-- `setPix` keeps the dimensions and the mode. -/
theorem setPix_shape (img : Img) (x y : ℤ) (v : Pix) :
    (img.setPix x y v).width = img.width ∧ (img.setPix x y v).height = img.height
      ∧ (img.setPix x y v).mode = img.mode :=
  ⟨rfl, rfl, rfl⟩

/-- One flood-fill visit keeps the dimensions and the mode. -/
theorem floodVisit_shape (bg val : Pix) (thresh : ℕ)
    (st : List (ℤ × ℤ) × Img) (q : ℤ × ℤ) :
    ((floodVisit bg val thresh st q).2).width = st.2.width
      ∧ ((floodVisit bg val thresh st q).2).height = st.2.height
      ∧ ((floodVisit bg val thresh st q).2).mode = st.2.mode := by
  unfold floodVisit
  split
  · exact ⟨rfl, rfl, rfl⟩
  · exact ⟨rfl, rfl, rfl⟩

/-- A fold of flood-fill visits keeps the dimensions and the mode. -/
theorem foldl_floodVisit_shape (bg val : Pix) (thresh : ℕ) :
    ∀ (l : List (ℤ × ℤ)) (st : List (ℤ × ℤ) × Img),
      ((l.foldl (floodVisit bg val thresh) st).2).width = st.2.width
        ∧ ((l.foldl (floodVisit bg val thresh) st).2).height = st.2.height
        ∧ ((l.foldl (floodVisit bg val thresh) st).2).mode = st.2.mode := by
  intro l
  induction l with
  | nil => exact fun st => ⟨rfl, rfl, rfl⟩
  | cons q rest ih =>
    intro st
    have h1 := floodVisit_shape bg val thresh st q
    have h2 := ih (floodVisit bg val thresh st q)
    simp only [List.foldl_cons]
    exact ⟨h2.1.trans h1.1, h2.2.1.trans h1.2.1, h2.2.2.trans h1.2.2⟩

/-- The flood-fill worklist loop keeps the dimensions and the mode. -/
theorem floodLoop_shape (bg val : Pix) (thresh : ℕ) :
    ∀ (fuel : ℕ) (stack : List (ℤ × ℤ)) (img : Img),
      (floodLoop bg val thresh fuel stack img).width = img.width
        ∧ (floodLoop bg val thresh fuel stack img).height = img.height
        ∧ (floodLoop bg val thresh fuel stack img).mode = img.mode := by
  intro fuel
  induction fuel with
  | zero => exact fun _ _ => ⟨rfl, rfl, rfl⟩
  | succ fuel ih =>
    intro stack img
    match stack with
    | [] => exact ⟨rfl, rfl, rfl⟩
    | (x, y) :: rest =>
      have h1 := foldl_floodVisit_shape bg val thresh
        [(x + 1, y), (x - 1, y), (x, y + 1), (x, y - 1)] (rest, img)
      have h2 := ih
        ([(x + 1, y), (x - 1, y), (x, y + 1), (x, y - 1)].foldl
          (floodVisit bg val thresh) (rest, img)).1
        ([(x + 1, y), (x - 1, y), (x, y + 1), (x, y - 1)].foldl
          (floodVisit bg val thresh) (rest, img)).2
      exact ⟨h2.1.trans h1.1, h2.2.1.trans h1.2.1, h2.2.2.trans h1.2.2⟩

/-- `ImageDraw.floodfill` keeps the dimensions and the mode. -/
theorem floodfill_shape (img : Img) (x y : ℤ) (val : Pix) (thresh : ℕ) :
    (ImageDraw_floodfill img x y val thresh).width = img.width
      ∧ (ImageDraw_floodfill img x y val thresh).height = img.height
      ∧ (ImageDraw_floodfill img x y val thresh).mode = img.mode := by
  simp only [ImageDraw_floodfill]
  split_ifs with h1 h2
  · exact ⟨rfl, rfl, rfl⟩
  · exact floodLoop_shape _ _ _ _ _ _
  · exact ⟨rfl, rfl, rfl⟩

/-- The corner floods keep the dimensions and the mode. -/
theorem cornerFloods_shape (img : Img) (fuzz : ℕ) :
    (cornerFloods img fuzz).width = img.width
      ∧ (cornerFloods img fuzz).height = img.height
      ∧ (cornerFloods img fuzz).mode = img.mode := by
  simp only [cornerFloods]
  have h1 := floodfill_shape img 0 0 clearPix fuzz
  have h2 := floodfill_shape (ImageDraw_floodfill img 0 0 clearPix fuzz)
    ((img.width : ℤ) - 1) 0 clearPix fuzz
  have h3 := floodfill_shape (ImageDraw_floodfill (ImageDraw_floodfill img 0 0
    clearPix fuzz) ((img.width : ℤ) - 1) 0 clearPix fuzz) 0
    ((img.height : ℤ) - 1) clearPix fuzz
  have h4 := floodfill_shape (ImageDraw_floodfill (ImageDraw_floodfill
    (ImageDraw_floodfill img 0 0 clearPix fuzz) ((img.width : ℤ) - 1) 0 clearPix
    fuzz) 0 ((img.height : ℤ) - 1) clearPix fuzz) ((img.width : ℤ) - 1)
    ((img.height : ℤ) - 1) clearPix fuzz
  exact ⟨((h4.1.trans h3.1).trans h2.1).trans h1.1,
    ((h4.2.1.trans h3.2.1).trans h2.2.1).trans h1.2.1,
    ((h4.2.2.trans h3.2.2).trans h2.2.2).trans h1.2.2⟩

/-- The hole hunt keeps the dimensions and the mode. -/
theorem holeHunt_shape (img : Img) (fuzz : ℕ) :
    (holeHunt img fuzz).width = img.width ∧ (holeHunt img fuzz).height = img.height
      ∧ (holeHunt img fuzz).mode = img.mode := by
  simp only [holeHunt]
  cases holeScanFrom img fuzz ((img.width / 2 : ℕ) : ℤ) (scanDepth img.height)
      (scanDepth img.height) 0 with
  | some y => exact floodfill_shape _ _ _ _ _
  | none => exact ⟨rfl, rfl, rfl⟩

/-- The whole flood stage keeps the dimensions and turns the mode RGBA. -/
theorem floodedImage_shape (img : Img) (fuzz : ℕ) :
    (floodedImage img fuzz).width = img.width
      ∧ (floodedImage img fuzz).height = img.height
      ∧ (floodedImage img fuzz).mode = Mode.RGBA := by
  have hc : img.convertRGBA.width = img.width ∧ img.convertRGBA.height = img.height
      ∧ img.convertRGBA.mode = Mode.RGBA := ⟨rfl, rfl, rfl⟩
  have hb := cornerFloods_shape img.convertRGBA fuzz
  have hh := holeHunt_shape (bgFlooded img fuzz) fuzz
  refine ⟨?_, ?_, ?_⟩
  · exact (hh.1.trans hb.1).trans hc.1
  · exact (hh.2.1.trans hb.2.1).trans hc.2.1
  · exact (hh.2.2.trans hb.2.2).trans hc.2.2

/-- C10: whatever the input pixel mode, `remove_background_and_inner_holes`
converts to RGBA first, and both the cropped result and the unchanged
fully-transparent result keep mode RGBA. -/
theorem result_always_rgba_spec (img : Img) (fuzz : ℕ) :
    (remove_background_and_inner_holes img fuzz).mode = Mode.RGBA := by
  have h3 := (floodedImage_shape img fuzz).2.2
  cases hbb : (floodedImage img fuzz).getbbox with
  | none => simp only [remove_background_and_inner_holes, hbb]; exact h3
  | some bb =>
    obtain ⟨l, t, r, b⟩ := bb
    simp only [remove_background_and_inner_holes, hbb, Img.crop]
    exact h3

/-- C6: on a nonexistent input path both `generate_pwa_icons` and
`slice_image_into_quadrants` report a diagnostic and return with no side
effects: the filesystem (files and directories) is unchanged and nothing is
raised. -/
theorem missing_input_no_side_effects_spec (env : Env) (p : String) (fs : FS)
    (h : fs.exists p = false) :
    (generate_pwa_icons env p fs).fs = fs
    ∧ (generate_pwa_icons env p fs).msgs = ["Error: Could not find " ++ p ++ "."]
    ∧ (generate_pwa_icons env p fs).exc = none
    ∧ (slice_image_into_quadrants env p fs).fs = fs
    ∧ (slice_image_into_quadrants env p fs).msgs
        = ["Error: Could not find file " ++ p]
    ∧ (slice_image_into_quadrants env p fs).exc = none := by
  refine ⟨?_, ?_, ?_, ?_, ?_, ?_⟩ <;>
    simp [generate_pwa_icons, slice_image_into_quadrants, h]

/-- C6 witness: the missing-input theorem instantiated on the empty
filesystem. -/
theorem missing_input_no_side_effects_spec_witness :
    fsEmpty.exists "missing.png" = false
    ∧ (generate_pwa_icons envW "missing.png" fsEmpty).fs = fsEmpty
    ∧ (slice_image_into_quadrants envW "missing.png" fsEmpty).msgs
        = ["Error: Could not find file " ++ "missing.png"] := by
  obtain ⟨h1, -, -, -, h5, -⟩ :=
    missing_input_no_side_effects_spec envW "missing.png" fsEmpty rfl
  exact ⟨rfl, h1, h5⟩

/-- An icon-loop step never changes the shared source image. -/
theorem genIconStep_img (env : Env) (st : GenState) (spec : String × ℕ × ℚ) :
    (genIconStep env st spec).img = st.img := by
  cases hexc : st.exc with
  | some e => simp [genIconStep, hexc]
  | none =>
    cases hsv : env.saveErr ("pwa-assets/" ++ spec.1) with
    | some e => simp [genIconStep, hexc, hsv]
    | none => simp [genIconStep, hexc, hsv]

/-- The icon loop never changes the shared source image. -/
theorem genLoop_img (env : Env) :
    ∀ (specs : List (String × ℕ × ℚ)) (st : GenState),
      (genLoop env specs st).img = st.img := by
  intro specs
  induction specs with
  | nil => intro st; rfl
  | cons a l ih =>
    intro st
    have h1 := ih (genIconStep env st a)
    have h2 := genIconStep_img env st a
    simp only [genLoop, List.foldl_cons] at h1 ⊢
    exact h1.trans h2

/-- An icon-loop step with an exception in flight does nothing. -/
theorem genIconStep_exc_frozen (env : Env) (st : GenState)
    (spec : String × ℕ × ℚ) (e : String) (h : st.exc = some e) :
    genIconStep env st spec = st := by
  simp [genIconStep, h]

/-- The icon loop with an exception in flight does nothing. -/
theorem genLoop_exc_frozen (env : Env) :
    ∀ (specs : List (String × ℕ × ℚ)) (st : GenState) (e : String),
      st.exc = some e → genLoop env specs st = st := by
  intro specs
  induction specs with
  | nil => intro st e _; rfl
  | cons a l ih =>
    intro st e h
    simp only [genLoop, List.foldl_cons] at ih ⊢
    rw [genIconStep_exc_frozen env st a e h]
    exact ih st e h

/-- C8: no iteration of the icon loop mutates the shared processed source
image: the loop leaves the state's image untouched, so for every split of the
icon list the image read after the earlier iterations is still exactly the
image `remove_background_and_inner_holes` produced. -/
theorem loop_preserves_source_spec (env : Env) (img0 : Img) (fs : FS)
    (msgs : List String) :
    (∀ (st : GenState) (specs : List (String × ℕ × ℚ)),
      (genLoop env specs st).img = st.img)
    ∧ ∀ (pre post : List (String × ℕ × ℚ)), icons = pre ++ post →
      (genLoop env pre
        { img := remove_background_and_inner_holes img0 60
          fs := fs, msgs := msgs, exc := none }).img
        = remove_background_and_inner_holes img0 60 := by
  refine ⟨fun st specs => genLoop_img env specs st, ?_⟩
  intro pre post hsplit
  exact genLoop_img env pre _

/-- C8 witness: the loop-preservation theorem applied to a concrete split of
the icon list after two iterations. -/
theorem loop_preserves_source_spec_witness :
    icons = [("favicon.ico", 64, (0.0 : ℚ)),
        ("apple-touch-icon-180x180.png", 180, 0.0)]
      ++ [("pwa-192x192.png", 192, 0.0), ("pwa-512x512.png", 512, 0.0),
        ("maskable-icon-512x512.png", 512, 0.10)]
    ∧ (genLoop envW [("favicon.ico", 64, (0.0 : ℚ)),
        ("apple-touch-icon-180x180.png", 180, 0.0)]
        { img := remove_background_and_inner_holes cimgW 60
          fs := fsW, msgs := [], exc := none }).img
      = remove_background_and_inner_holes cimgW 60 := by
  refine ⟨rfl, ?_⟩
  exact (loop_preserves_source_spec envW cimgW fsW []).2 _ _ rfl

/-- A failing first icon save freezes the loop with that exception. -/
theorem genLoop_first_save_fails (env : Env) (st : GenState) (e : String)
    (hexc : st.exc = none)
    (hse : env.saveErr "pwa-assets/favicon.ico" = some e) :
    genLoop env icons st = { st with exc := some e } := by
  have h1 : genIconStep env st ("favicon.ico", 64, (0.0 : ℚ))
      = { st with exc := some e } := by
    simp [genIconStep, hexc, hse]
  simp only [icons, genLoop, List.foldl_cons, List.foldl_nil]
  rw [h1, genIconStep_exc_frozen env _ _ e rfl, genIconStep_exc_frozen env _ _ e rfl,
    genIconStep_exc_frozen env _ _ e rfl, genIconStep_exc_frozen env _ _ e rfl]

/-- A failing first quadrant save aborts the slicer's save loop at once. -/
theorem sliceLoop_first_save_fails (env : Env) (img1 : Img) (fs : FS)
    (msgs : List String) (e2 : String)
    (hse : env.saveErr "Ned_The_Pink_Cloud.jpg" = some e2) :
    sliceSaveLoop env (sliceCuts img1) fs msgs = (fs, msgs, some e2) := by
  simp [sliceCuts, sliceSaveLoop, hse]

/-- C7 (amended): in `generate_pwa_icons` a failure while saving an output
file is raised outside any handler and propagates out of the routine; in
`slice_image_into_quadrants` the same failure happens inside the routine's
broad `except Exception` handler, so it is caught and reported as a message
rather than propagated. -/
theorem save_failure_handling_spec (env : Env) (src p : String) (fs : FS)
    (bytes bytes2 : Bytes) (img0 img1 : Img) (e e2 : String)
    (hgf : fs.files src = some bytes)
    (hgd : env.decode bytes = Except.ok img0)
    (hge : env.saveErr "pwa-assets/favicon.ico" = some e)
    (hsf : fs.files p = some bytes2)
    (hsd : env.decode bytes2 = Except.ok img1)
    (hse : env.saveErr "Ned_The_Pink_Cloud.jpg" = some e2) :
    (generate_pwa_icons env src fs).exc = some e
    ∧ (slice_image_into_quadrants env p fs).exc = none
    ∧ ("An error occurred: " ++ e2) ∈ (slice_image_into_quadrants env p fs).msgs := by
  have hex : fs.exists src = true := by simp [FS.exists, hgf]
  have hexp : fs.exists p = true := by simp [FS.exists, hsf]
  refine ⟨?_, ?_, ?_⟩
  · simp only [generate_pwa_icons, hex, openImage, hgf, hgd, genAfterOpen]
    rw [genLoop_first_save_fails env _ e rfl hge]
    simp
  · simp only [slice_image_into_quadrants, hexp, openImage, hsf, hsd]
    rw [sliceLoop_first_save_fails env img1 fs _ e2 hse]
    simp
  · simp only [slice_image_into_quadrants, hexp, openImage, hsf, hsd]
    rw [sliceLoop_first_save_fails env img1 fs _ e2 hse]
    simp

/-- C7 counterexample: a concrete run of `slice_image_into_quadrants` in
which a save fails (the input exists and the environment raises on the first
output file), yet the routine raises nothing - the failure is caught by the
broad handler and reported as a message, refuting the claim that in both
pipelines save failures propagate as fatal errors. -/
theorem save_failure_propagation_cex :
    fsX.exists "x.jpg" = true
    ∧ envFailSlice.saveErr "Ned_The_Pink_Cloud.jpg" = some "disk full"
    ∧ (slice_image_into_quadrants envFailSlice "x.jpg" fsX).exc = none
    ∧ (slice_image_into_quadrants envFailSlice "x.jpg" fsX).msgs
        = ["Processing " ++ "x.jpg" ++ "...",
           "An error occurred: " ++ "disk full"] := by
  refine ⟨rfl, rfl, ?_, ?_⟩ <;>
    simp [slice_image_into_quadrants, openImage, fsX, envFailSlice, envW,
      sliceCuts, sliceSaveLoop, FS.exists]

/-- C7 witness: the amended theorem instantiated on an environment whose
first saves fail in both pipelines. -/
theorem save_failure_handling_spec_witness :
    (generate_pwa_icons envFailBoth "x.jpg" fsX).exc = some "disk full"
    ∧ (slice_image_into_quadrants envFailBoth "x.jpg" fsX).exc = none := by
  obtain ⟨h1, h2, -⟩ := save_failure_handling_spec envFailBoth "x.jpg" "x.jpg" fsX
    [0] [0] cimgW cimgW "disk full" "disk full" rfl rfl (by simp [envFailBoth])
    rfl rfl (by simp [envFailBoth])
  exact ⟨h1, h2⟩

/-- The centerline scan returns `none` exactly when no row of the remaining
window qualifies. -/
theorem holeScanFrom_none_aux (img : Img) (fuzz : ℕ) (cx : ℤ) (d : ℕ) :
    ∀ (n y : ℕ), d - y ≤ n →
      (holeScanFrom img fuzz cx d n y = none ↔
        ∀ z, y ≤ z → z < d → ¬ holeQual img fuzz cx z) := by
  intro n
  induction n with
  | zero =>
    intro y hy
    rw [holeScanFrom]
    constructor
    · intro _ z hz1 hz2 _; omega
    · intro _; rfl
  | succ n ih =>
    intro y hy
    rw [holeScanFrom]
    by_cases h1 : y < d
    · rw [if_pos h1]
      by_cases h2 : holeQual img fuzz cx y
      · rw [if_pos h2]
        constructor
        · intro hc; exact absurd hc (Option.some_ne_none y)
        · intro hall; exact absurd h2 (hall y le_rfl h1)
      · rw [if_neg h2]
        rw [ih (y + 1) (by omega)]
        constructor
        · intro hall z hz1 hz2
          rcases Nat.eq_or_lt_of_le hz1 with h | h
          · exact h ▸ h2
          · exact hall z h hz2
        · intro hall z hz1 hz2
          exact hall z (by omega) hz2
    · rw [if_neg h1]
      constructor
      · intro _ z hz1 hz2 _; omega
      · intro _; rfl

/-- The centerline scan returns `some y0` only for the first qualifying row
of the remaining window. -/
theorem holeScanFrom_some_aux (img : Img) (fuzz : ℕ) (cx : ℤ) (d : ℕ) :
    ∀ (n y y0 : ℕ), d - y ≤ n → holeScanFrom img fuzz cx d n y = some y0 →
      y ≤ y0 ∧ y0 < d ∧ holeQual img fuzz cx y0
        ∧ ∀ z, y ≤ z → z < y0 → ¬ holeQual img fuzz cx z := by
  intro n
  induction n with
  | zero =>
    intro y y0 hy hc
    rw [holeScanFrom] at hc
    exact absurd hc (by simp)
  | succ n ih =>
    intro y y0 hy hc
    rw [holeScanFrom] at hc
    by_cases h1 : y < d
    · rw [if_pos h1] at hc
      by_cases h2 : holeQual img fuzz cx y
      · rw [if_pos h2] at hc
        injection hc with h3
        subst h3
        exact ⟨le_rfl, h1, h2, fun z hz1 hz2 => by omega⟩
      · rw [if_neg h2] at hc
        obtain ⟨ha, hb, hq, hmin⟩ := ih (y + 1) y0 (by omega) hc
        refine ⟨by omega, hb, hq, fun z hz1 hz2 => ?_⟩
        rcases Nat.eq_or_lt_of_le hz1 with h | h
        · exact h ▸ h2
        · exact hmin z h hz2
    · rw [if_neg h1] at hc
      exact absurd hc (by simp)

/-- Full-window version of the `none` characterisation. -/
theorem holeScanFrom_none_iff (img : Img) (fuzz : ℕ) (cx : ℤ) (d : ℕ) :
    holeScanFrom img fuzz cx d d 0 = none ↔
      ∀ z, z < d → ¬ holeQual img fuzz cx z := by
  rw [holeScanFrom_none_aux img fuzz cx d d 0 (by omega)]
  exact ⟨fun h z hz => h z (Nat.zero_le z) hz, fun h z _ hz => h z hz⟩

/-- Full-window version of the `some` characterisation. -/
theorem holeScanFrom_some_first (img : Img) (fuzz : ℕ) (cx : ℤ) (d y0 : ℕ)
    (h : holeScanFrom img fuzz cx d d 0 = some y0) :
    y0 < d ∧ holeQual img fuzz cx y0
      ∧ ∀ z, z < y0 → ¬ holeQual img fuzz cx z := by
  obtain ⟨-, hb, hq, hmin⟩ := holeScanFrom_some_aux img fuzz cx d d 0 y0 (by omega) h
  exact ⟨hb, hq, fun z hz => hmin z (Nat.zero_le z) hz⟩

/-- C1: after the corner floods, the centerline scan over the top 40% of the
height performs at most one extra hole flood: if no scanned pixel is both
still of nonzero alpha and near-white, the image is unchanged (no error), and
otherwise the result is exactly one flood fill seeded at the first such pixel,
after which scanning stops. -/
theorem single_hole_flood_spec (img : Img) (fuzz : ℕ) :
    ((∀ y, y < scanDepth (bgFlooded img fuzz).height →
        ¬ holeQual (bgFlooded img fuzz) fuzz (holeSeedX (bgFlooded img fuzz)) y) →
      holeHunt (bgFlooded img fuzz) fuzz = bgFlooded img fuzz)
    ∧ ∀ y0, y0 < scanDepth (bgFlooded img fuzz).height →
        holeQual (bgFlooded img fuzz) fuzz (holeSeedX (bgFlooded img fuzz)) y0 →
        (∀ y, y < y0 →
          ¬ holeQual (bgFlooded img fuzz) fuzz (holeSeedX (bgFlooded img fuzz)) y) →
        holeHunt (bgFlooded img fuzz) fuzz
          = ImageDraw_floodfill (bgFlooded img fuzz)
              (holeSeedX (bgFlooded img fuzz)) (y0 : ℤ) clearPix fuzz := by
  constructor
  · intro hnone
    have hs : holeScanFrom (bgFlooded img fuzz) fuzz (holeSeedX (bgFlooded img fuzz))
        (scanDepth (bgFlooded img fuzz).height) (scanDepth (bgFlooded img fuzz).height)
        0 = none :=
      (holeScanFrom_none_iff _ _ _ _).mpr (fun z hz => hnone z hz)
    simp only [holeSeedX] at hs
    simp only [holeHunt]
    rw [hs]
  · intro y0 hlt hq hmin
    have hs : holeScanFrom (bgFlooded img fuzz) fuzz (holeSeedX (bgFlooded img fuzz))
        (scanDepth (bgFlooded img fuzz).height) (scanDepth (bgFlooded img fuzz).height)
        0 = some y0 := by
      cases hsc : holeScanFrom (bgFlooded img fuzz) fuzz
          (holeSeedX (bgFlooded img fuzz)) (scanDepth (bgFlooded img fuzz).height)
          (scanDepth (bgFlooded img fuzz).height) 0 with
      | none => exact absurd hq ((holeScanFrom_none_iff _ _ _ _).mp hsc y0 hlt)
      | some y1 =>
        obtain ⟨h1, h2, h3⟩ := holeScanFrom_some_first _ _ _ _ _ hsc
        have hy : y1 = y0 := by
          rcases lt_trichotomy y1 y0 with h | h | h
          · exact absurd h2 (hmin y1 h)
          · exact h
          · exact absurd hq (h3 y0 h)
        rw [hy]
    simp only [holeSeedX] at hs
    simp only [holeHunt]
    rw [hs]
    rfl

set_option maxRecDepth 4000 in
/-- C1 witness: on the all-white test image the flood clears everything and
the scan finds nothing (no second flood, no error); on the black-corner test
image the scan fires at the top-center pixel and the result is exactly one
flood fill seeded there. -/
theorem single_hole_flood_spec_witness :
    (holeHunt (bgFlooded cimgT 60) 60 = bgFlooded cimgT 60)
    ∧ (0 < scanDepth (bgFlooded cimgB 60).height
      ∧ holeQual (bgFlooded cimgB 60) 60 (holeSeedX (bgFlooded cimgB 60)) 0
      ∧ holeHunt (bgFlooded cimgB 60) 60
          = ImageDraw_floodfill (bgFlooded cimgB 60)
              (holeSeedX (bgFlooded cimgB 60)) ((0 : ℕ) : ℤ) clearPix 60) := by
  refine ⟨(single_hole_flood_spec cimgT 60).1 (by decide), by decide, by decide,
    (single_hole_flood_spec cimgB 60).2 0 (by decide) (by decide)
      (fun y hy => absurd hy (Nat.not_lt_zero y))⟩

/-- Membership in the content set: in-bounds and nonzero alpha. -/
theorem mem_contentPts (img : Img) (p : ℕ × ℕ) :
    p ∈ contentPts img ↔
      p.1 < img.width ∧ p.2 < img.height ∧ 0 < (img.pix (p.1 : ℤ) (p.2 : ℤ)).a := by
  simp [contentPts, Finset.mem_filter, Finset.mem_product, Finset.mem_range, and_assoc]

/-- C5: if after the floods every in-bounds pixel has zero alpha, `getbbox`
is `None`, the crop step is skipped and the flooded image itself is returned
(no error). -/
theorem fully_transparent_skip_crop_spec (img : Img) (fuzz : ℕ)
    (h : ∀ x : ℕ, x < (floodedImage img fuzz).width → ∀ y : ℕ,
        y < (floodedImage img fuzz).height →
        ((floodedImage img fuzz).pix (x : ℤ) (y : ℤ)).a = 0) :
    (floodedImage img fuzz).getbbox = none
    ∧ remove_background_and_inner_holes img fuzz = floodedImage img fuzz := by
  have hne : ¬ (contentPts (floodedImage img fuzz)).Nonempty := by
    rintro ⟨p, hp⟩
    rw [mem_contentPts] at hp
    have := h p.1 hp.1 p.2 hp.2.1
    omega
  have hbb : (floodedImage img fuzz).getbbox = none := by
    rw [Img.getbbox, dif_neg hne]
  refine ⟨hbb, ?_⟩
  simp only [remove_background_and_inner_holes, hbb]

set_option maxRecDepth 4000 in
/-- C5 witness: the all-white test image is fully transparent after the
floods, and the theorem applies to it. -/
theorem fully_transparent_skip_crop_spec_witness :
    (∀ x : ℕ, x < (floodedImage cimgT 60).width → ∀ y : ℕ,
        y < (floodedImage cimgT 60).height →
        ((floodedImage cimgT 60).pix (x : ℤ) (y : ℤ)).a = 0)
    ∧ (floodedImage cimgT 60).getbbox = none
    ∧ remove_background_and_inner_holes cimgT 60 = floodedImage cimgT 60 := by
  have h : ∀ x : ℕ, x < (floodedImage cimgT 60).width → ∀ y : ℕ,
      y < (floodedImage cimgT 60).height →
      ((floodedImage cimgT 60).pix (x : ℤ) (y : ℤ)).a = 0 := by decide
  obtain ⟨h1, h2⟩ := fully_transparent_skip_crop_spec cimgT 60 h
  exact ⟨h, h1, h2⟩

/-- C4: when some pixel keeps nonzero alpha after the floods, the returned
image is the crop to the tight half-open bounding box `(L, T, R, B)` of the
nonzero-alpha pixels inflated by one pixel each way - the box
`(L-1, T-1, R+1, B+1)` is passed to the crop exactly as computed, with no
clamping, and the result's size is `(R-L+2, B-T+2)` even when the inflated
box leaves the image. -/
theorem bbox_inflate_crop_spec (img : Img) (fuzz : ℕ)
    (hne : (contentPts (floodedImage img fuzz)).Nonempty) :
    ∃ L T R B : ℤ,
      (floodedImage img fuzz).getbbox = some (L, T, R, B)
      ∧ (∀ p ∈ contentPts (floodedImage img fuzz),
          L ≤ (p.1 : ℤ) ∧ (p.1 : ℤ) < R ∧ T ≤ (p.2 : ℤ) ∧ (p.2 : ℤ) < B)
      ∧ (∃ p ∈ contentPts (floodedImage img fuzz), (p.1 : ℤ) = L)
      ∧ (∃ p ∈ contentPts (floodedImage img fuzz), (p.1 : ℤ) = R - 1)
      ∧ (∃ p ∈ contentPts (floodedImage img fuzz), (p.2 : ℤ) = T)
      ∧ (∃ p ∈ contentPts (floodedImage img fuzz), (p.2 : ℤ) = B - 1)
      ∧ remove_background_and_inner_holes img fuzz
          = (floodedImage img fuzz).crop (L - 1) (T - 1) (R + 1) (B + 1)
      ∧ (remove_background_and_inner_holes img fuzz).width = (R - L + 2).toNat
      ∧ (remove_background_and_inner_holes img fuzz).height = (B - T + 2).toNat := by
  have hx : ((contentPts (floodedImage img fuzz)).image Prod.fst).Nonempty :=
    hne.image _
  have hy : ((contentPts (floodedImage img fuzz)).image Prod.snd).Nonempty :=
    hne.image _
  have hbb : (floodedImage img fuzz).getbbox
      = some (((((contentPts (floodedImage img fuzz)).image Prod.fst).min' hx : ℕ) : ℤ),
        ((((contentPts (floodedImage img fuzz)).image Prod.snd).min' hy : ℕ) : ℤ),
        ((((contentPts (floodedImage img fuzz)).image Prod.fst).max' hx : ℕ) : ℤ) + 1,
        ((((contentPts (floodedImage img fuzz)).image Prod.snd).max' hy : ℕ) : ℤ) + 1) := by
    rw [Img.getbbox, dif_pos hne]
  have hrem : remove_background_and_inner_holes img fuzz
      = (floodedImage img fuzz).crop
        (((((contentPts (floodedImage img fuzz)).image Prod.fst).min' hx : ℕ) : ℤ) - 1)
        (((((contentPts (floodedImage img fuzz)).image Prod.snd).min' hy : ℕ) : ℤ) - 1)
        (((((contentPts (floodedImage img fuzz)).image Prod.fst).max' hx : ℕ) : ℤ) + 1 + 1)
        (((((contentPts (floodedImage img fuzz)).image Prod.snd).max' hy : ℕ) : ℤ) + 1 + 1) := by
    simp only [remove_background_and_inner_holes, hbb]
  refine ⟨_, _, _, _, hbb, ?_, ?_, ?_, ?_, ?_, hrem, ?_, ?_⟩
  · intro p hp
    have h1 := Finset.min'_le _ _ (Finset.mem_image_of_mem Prod.fst hp)
    have h2 := Finset.le_max' _ _ (Finset.mem_image_of_mem Prod.fst hp)
    have h3 := Finset.min'_le _ _ (Finset.mem_image_of_mem Prod.snd hp)
    have h4 := Finset.le_max' _ _ (Finset.mem_image_of_mem Prod.snd hp)
    refine ⟨?_, ?_, ?_, ?_⟩ <;> omega
  · obtain ⟨p, hp, hpe⟩ := Finset.mem_image.mp (Finset.min'_mem _ hx)
    exact ⟨p, hp, by exact_mod_cast hpe⟩
  · obtain ⟨p, hp, hpe⟩ := Finset.mem_image.mp (Finset.max'_mem _ hx)
    refine ⟨p, hp, ?_⟩
    omega
  · obtain ⟨p, hp, hpe⟩ := Finset.mem_image.mp (Finset.min'_mem _ hy)
    exact ⟨p, hp, by exact_mod_cast hpe⟩
  · obtain ⟨p, hp, hpe⟩ := Finset.mem_image.mp (Finset.max'_mem _ hy)
    refine ⟨p, hp, ?_⟩
    omega
  · rw [hrem]
    simp only [Img.crop]
    congr 1
    ring
  · rw [hrem]
    simp only [Img.crop]
    congr 1
    ring

set_option maxRecDepth 4000 in
/-- C4 witness: the black-corner blue-center test image keeps content after
the floods; its bounding box starts at the image corner, so the inflated crop
box leaves the image and is still passed unclamped. -/
theorem bbox_inflate_crop_spec_witness :
    (contentPts (floodedImage cimgH 60)).Nonempty
    ∧ ∃ L T R B : ℤ,
        (floodedImage cimgH 60).getbbox = some (L, T, R, B)
        ∧ remove_background_and_inner_holes cimgH 60
            = (floodedImage cimgH 60).crop (L - 1) (T - 1) (R + 1) (B + 1) := by
  have h : (contentPts (floodedImage cimgH 60)).Nonempty :=
    Finset.card_pos.mp (by decide)
  obtain ⟨L, T, R, B, h1, -, -, -, -, -, h7, -, -⟩ := bbox_inflate_crop_spec cimgH 60 h
  exact ⟨h, L, T, R, B, h1, h7⟩

/-- Python floor division by two leaves a remainder of zero or one: the
leftover of a centred paste is at most one pixel, biased toward the
top-left. -/
theorem fdiv2_bias (a : ℤ) :
    0 ≤ a - 2 * Int.fdiv a 2 ∧ a - 2 * Int.fdiv a 2 ≤ 1 := by
  have h1 : Int.fmod a 2 + 2 * Int.fdiv a 2 = a := Int.fmod_add_fdiv a 2
  have he : Int.fmod a 2 = a % 2 := Int.fmod_eq_emod a (by norm_num)
  have h2 : 0 ≤ a % 2 := Int.emod_nonneg a (by norm_num)
  have h3 : a % 2 < 2 := Int.emod_lt_of_pos a (by norm_num)
  omega

/-- The geometry record in the wide case (`img_ratio > 1`). -/
theorem iconGeometry_wide (w h S : ℕ) (P : ℚ) (hbr : 1 < (w : ℚ) / (h : ℚ)) :
    iconGeometry w h S P =
      { max_dim := pyInt ((S : ℚ) * (1 - P * 2))
        new_w := pyInt ((S : ℚ) * (1 - P * 2))
        new_h := pyInt ((pyInt ((S : ℚ) * (1 - P * 2)) : ℚ) / ((w : ℚ) / (h : ℚ)))
        x_pos := Int.fdiv ((S : ℤ) - pyInt ((S : ℚ) * (1 - P * 2))) 2
        y_pos := Int.fdiv ((S : ℤ)
          - pyInt ((pyInt ((S : ℚ) * (1 - P * 2)) : ℚ) / ((w : ℚ) / (h : ℚ)))) 2 } := by
  simp only [iconGeometry, gt_iff_lt]
  rw [if_pos hbr]

/-- The geometry record in the tall-or-square case (`img_ratio ≤ 1`). -/
theorem iconGeometry_tall (w h S : ℕ) (P : ℚ) (hbr : ¬ 1 < (w : ℚ) / (h : ℚ)) :
    iconGeometry w h S P =
      { max_dim := pyInt ((S : ℚ) * (1 - P * 2))
        new_w := pyInt ((pyInt ((S : ℚ) * (1 - P * 2)) : ℚ) * ((w : ℚ) / (h : ℚ)))
        new_h := pyInt ((S : ℚ) * (1 - P * 2))
        x_pos := Int.fdiv ((S : ℤ)
          - pyInt ((pyInt ((S : ℚ) * (1 - P * 2)) : ℚ) * ((w : ℚ) / (h : ℚ)))) 2
        y_pos := Int.fdiv ((S : ℤ) - pyInt ((S : ℚ) * (1 - P * 2))) 2 } := by
  simp only [iconGeometry, gt_iff_lt]
  rw [if_neg hbr]

/-- C2: for any source size `w x h` (`w, h >= 1`), square target `S` and
padding fraction `0 <= P < 1/2`, the resize-and-center geometry computes the
inner side `m = floor(S * (1 - 2P))`; it scales to width `m` and height
`floor(m / (w/h))` when `w/h > 1`, and to height `m` and width
`floor(m * (w/h))` otherwise; the offsets are the Python floor divisions
`(S - new_w) // 2`, `(S - new_h) // 2`; the larger pasted dimension equals
`m`; the aspect ratio is preserved to within one pixel; and the centering
leftover is at most one pixel, biased toward the top-left. -/
theorem resize_center_geometry_spec (w h S : ℕ) (P : ℚ)
    (hw : 1 ≤ w) (hh : 1 ≤ h) (hP0 : 0 ≤ P) (hP2 : P < 1 / 2) :
    (iconGeometry w h S P).max_dim = ⌊(S : ℚ) * (1 - 2 * P)⌋
    ∧ (iconGeometry w h S P).x_pos
        = Int.fdiv ((S : ℤ) - (iconGeometry w h S P).new_w) 2
    ∧ (iconGeometry w h S P).y_pos
        = Int.fdiv ((S : ℤ) - (iconGeometry w h S P).new_h) 2
    ∧ max (iconGeometry w h S P).new_w (iconGeometry w h S P).new_h
        = ⌊(S : ℚ) * (1 - 2 * P)⌋
    ∧ 0 ≤ (iconGeometry w h S P).new_w ∧ (iconGeometry w h S P).new_w ≤ (S : ℤ)
    ∧ 0 ≤ (iconGeometry w h S P).new_h ∧ (iconGeometry w h S P).new_h ≤ (S : ℤ)
    ∧ 0 ≤ (S : ℤ) - (iconGeometry w h S P).new_w - 2 * (iconGeometry w h S P).x_pos
    ∧ (S : ℤ) - (iconGeometry w h S P).new_w - 2 * (iconGeometry w h S P).x_pos ≤ 1
    ∧ 0 ≤ (S : ℤ) - (iconGeometry w h S P).new_h - 2 * (iconGeometry w h S P).y_pos
    ∧ (S : ℤ) - (iconGeometry w h S P).new_h - 2 * (iconGeometry w h S P).y_pos ≤ 1
    ∧ (h < w →
        (iconGeometry w h S P).new_w = ⌊(S : ℚ) * (1 - 2 * P)⌋
        ∧ (iconGeometry w h S P).new_h
            = ⌊(⌊(S : ℚ) * (1 - 2 * P)⌋ : ℚ) / ((w : ℚ) / (h : ℚ))⌋
        ∧ ((iconGeometry w h S P).new_h : ℚ)
            ≤ (⌊(S : ℚ) * (1 - 2 * P)⌋ : ℚ) * (h : ℚ) / (w : ℚ)
        ∧ (⌊(S : ℚ) * (1 - 2 * P)⌋ : ℚ) * (h : ℚ) / (w : ℚ) - 1
            < ((iconGeometry w h S P).new_h : ℚ))
    ∧ (w ≤ h →
        (iconGeometry w h S P).new_h = ⌊(S : ℚ) * (1 - 2 * P)⌋
        ∧ (iconGeometry w h S P).new_w
            = ⌊(⌊(S : ℚ) * (1 - 2 * P)⌋ : ℚ) * ((w : ℚ) / (h : ℚ))⌋
        ∧ ((iconGeometry w h S P).new_w : ℚ)
            ≤ (⌊(S : ℚ) * (1 - 2 * P)⌋ : ℚ) * (w : ℚ) / (h : ℚ)
        ∧ (⌊(S : ℚ) * (1 - 2 * P)⌋ : ℚ) * (w : ℚ) / (h : ℚ) - 1
            < ((iconGeometry w h S P).new_w : ℚ)) := by
  have hS0 : (0 : ℚ) ≤ (S : ℚ) := Nat.cast_nonneg S
  have hw0 : (0 : ℚ) < (w : ℚ) := by exact_mod_cast Nat.lt_of_lt_of_le Nat.zero_lt_one hw
  have hh0 : (0 : ℚ) < (h : ℚ) := by exact_mod_cast Nat.lt_of_lt_of_le Nat.zero_lt_one hh
  have harg : (0 : ℚ) ≤ (S : ℚ) * (1 - P * 2) := by nlinarith
  have harg2 : (0 : ℚ) ≤ (S : ℚ) * (1 - 2 * P) := by nlinarith
  have hmd : pyInt ((S : ℚ) * (1 - P * 2)) = ⌊(S : ℚ) * (1 - 2 * P)⌋ := by
    rw [pyInt_eq_floor _ harg]
    congr 1
    ring
  have hm0 : 0 ≤ ⌊(S : ℚ) * (1 - 2 * P)⌋ := Int.floor_nonneg.mpr harg2
  have hm0' : (0 : ℚ) ≤ (⌊(S : ℚ) * (1 - 2 * P)⌋ : ℚ) := by exact_mod_cast hm0
  have hmS : ⌊(S : ℚ) * (1 - 2 * P)⌋ ≤ (S : ℤ) := by
    have hle : (S : ℚ) * (1 - 2 * P) ≤ (S : ℚ) := by nlinarith
    calc ⌊(S : ℚ) * (1 - 2 * P)⌋ ≤ ⌊(S : ℚ)⌋ := Int.floor_le_floor hle
      _ = (S : ℤ) := Int.floor_natCast S
  by_cases hbr : 1 < (w : ℚ) / (h : ℚ)
  · -- wide case: w/h > 1, i.e. h < w
    have hhw : h < w := by exact_mod_cast (one_lt_div hh0).mp hbr
    have hr0 : (0 : ℚ) < (w : ℚ) / (h : ℚ) := lt_trans one_pos hbr
    have hdivnn : (0 : ℚ) ≤ (⌊(S : ℚ) * (1 - 2 * P)⌋ : ℚ) / ((w : ℚ) / (h : ℚ)) :=
      div_nonneg hm0' (le_of_lt hr0)
    have hnh : pyInt ((⌊(S : ℚ) * (1 - 2 * P)⌋ : ℚ) / ((w : ℚ) / (h : ℚ)))
        = ⌊(⌊(S : ℚ) * (1 - 2 * P)⌋ : ℚ) / ((w : ℚ) / (h : ℚ))⌋ :=
      pyInt_eq_floor _ hdivnn
    have hdive : (⌊(S : ℚ) * (1 - 2 * P)⌋ : ℚ) / ((w : ℚ) / (h : ℚ))
        = (⌊(S : ℚ) * (1 - 2 * P)⌋ : ℚ) * (h : ℚ) / (w : ℚ) := div_div_eq_mul_div _ _ _
    have hnh_le : ⌊(⌊(S : ℚ) * (1 - 2 * P)⌋ : ℚ) / ((w : ℚ) / (h : ℚ))⌋
        ≤ ⌊(S : ℚ) * (1 - 2 * P)⌋ := by
      have : (⌊(S : ℚ) * (1 - 2 * P)⌋ : ℚ) / ((w : ℚ) / (h : ℚ))
          ≤ (⌊(S : ℚ) * (1 - 2 * P)⌋ : ℚ) := div_le_self hm0' (le_of_lt hbr)
      calc ⌊(⌊(S : ℚ) * (1 - 2 * P)⌋ : ℚ) / ((w : ℚ) / (h : ℚ))⌋
          ≤ ⌊(⌊(S : ℚ) * (1 - 2 * P)⌋ : ℚ)⌋ := Int.floor_le_floor this
        _ = ⌊(S : ℚ) * (1 - 2 * P)⌋ := Int.floor_intCast _
    have hnh_0 : 0 ≤ ⌊(⌊(S : ℚ) * (1 - 2 * P)⌋ : ℚ) / ((w : ℚ) / (h : ℚ))⌋ :=
      Int.floor_nonneg.mpr hdivnn
    rw [iconGeometry_wide w h S P hbr]
    dsimp only
    rw [hmd, hnh]
    refine ⟨rfl, rfl, rfl, max_eq_left hnh_le, hm0, hmS, hnh_0,
      le_trans hnh_le hmS, (fdiv2_bias _).1, (fdiv2_bias _).2,
      (fdiv2_bias _).1, (fdiv2_bias _).2, ?_, ?_⟩
    · intro _
      refine ⟨rfl, rfl, ?_, ?_⟩
      · rw [← hdive]
        exact Int.floor_le _
      · rw [← hdive]
        exact Int.sub_one_lt_floor _
    · intro hwh
      omega
  · -- tall-or-square case: w/h <= 1, i.e. w <= h
    have hwh : w ≤ h := by
      have h1 : (w : ℚ) / (h : ℚ) ≤ 1 := not_lt.mp hbr
      have h2 : (w : ℚ) ≤ (h : ℚ) := (div_le_one hh0).mp h1
      exact_mod_cast h2
    have hr0 : (0 : ℚ) ≤ (w : ℚ) / (h : ℚ) := div_nonneg (le_of_lt hw0) (le_of_lt hh0)
    have hr1 : (w : ℚ) / (h : ℚ) ≤ 1 := not_lt.mp hbr
    have hmulnn : (0 : ℚ) ≤ (⌊(S : ℚ) * (1 - 2 * P)⌋ : ℚ) * ((w : ℚ) / (h : ℚ)) :=
      mul_nonneg hm0' hr0
    have hnw : pyInt ((⌊(S : ℚ) * (1 - 2 * P)⌋ : ℚ) * ((w : ℚ) / (h : ℚ)))
        = ⌊(⌊(S : ℚ) * (1 - 2 * P)⌋ : ℚ) * ((w : ℚ) / (h : ℚ))⌋ :=
      pyInt_eq_floor _ hmulnn
    have hmule : (⌊(S : ℚ) * (1 - 2 * P)⌋ : ℚ) * ((w : ℚ) / (h : ℚ))
        = (⌊(S : ℚ) * (1 - 2 * P)⌋ : ℚ) * (w : ℚ) / (h : ℚ) := by ring
    have hnw_le : ⌊(⌊(S : ℚ) * (1 - 2 * P)⌋ : ℚ) * ((w : ℚ) / (h : ℚ))⌋
        ≤ ⌊(S : ℚ) * (1 - 2 * P)⌋ := by
      have : (⌊(S : ℚ) * (1 - 2 * P)⌋ : ℚ) * ((w : ℚ) / (h : ℚ))
          ≤ (⌊(S : ℚ) * (1 - 2 * P)⌋ : ℚ) := mul_le_of_le_one_right hm0' hr1
      calc ⌊(⌊(S : ℚ) * (1 - 2 * P)⌋ : ℚ) * ((w : ℚ) / (h : ℚ))⌋
          ≤ ⌊(⌊(S : ℚ) * (1 - 2 * P)⌋ : ℚ)⌋ := Int.floor_le_floor this
        _ = ⌊(S : ℚ) * (1 - 2 * P)⌋ := Int.floor_intCast _
    have hnw_0 : 0 ≤ ⌊(⌊(S : ℚ) * (1 - 2 * P)⌋ : ℚ) * ((w : ℚ) / (h : ℚ))⌋ :=
      Int.floor_nonneg.mpr hmulnn
    rw [iconGeometry_tall w h S P hbr]
    dsimp only
    rw [hmd, hnw]
    refine ⟨rfl, rfl, rfl, max_eq_right hnw_le, hnw_0, le_trans hnw_le hmS,
      hm0, hmS, (fdiv2_bias _).1, (fdiv2_bias _).2,
      (fdiv2_bias _).1, (fdiv2_bias _).2, ?_, ?_⟩
    · intro hcontra
      omega
    · intro _
      refine ⟨rfl, rfl, ?_, ?_⟩
      · rw [← hmule]
        exact Int.floor_le _
      · rw [← hmule]
        exact Int.sub_one_lt_floor _

/-- C2 witness: the geometry theorem instantiated at a 2x1 source, target
size 64 and zero padding, hypotheses discharged. -/
theorem resize_center_geometry_spec_witness :
    (iconGeometry 2 1 64 0).max_dim = ⌊((64 : ℕ) : ℚ) * (1 - 2 * 0)⌋
    ∧ max (iconGeometry 2 1 64 0).new_w (iconGeometry 2 1 64 0).new_h
        = ⌊((64 : ℕ) : ℚ) * (1 - 2 * 0)⌋
    ∧ (iconGeometry 2 1 64 0).new_h
        = ⌊(⌊((64 : ℕ) : ℚ) * (1 - 2 * 0)⌋ : ℚ) / (((2 : ℕ) : ℚ) / ((1 : ℕ) : ℚ))⌋ := by
  obtain ⟨h1, -, -, h4, -, -, -, -, -, -, -, -, hwide, -⟩ :=
    resize_center_geometry_spec 2 1 64 0 (by norm_num) (by norm_num) le_rfl
      (by norm_num)
  obtain ⟨-, hnh, -, -⟩ := hwide (by norm_num)
  exact ⟨h1, h4, hnh⟩

/-- Two filesystems with the same files and directories are equal. -/
theorem FS.ext' (a b : FS) (h1 : ∀ p, a.files p = b.files p)
    (h2 : ∀ p, a.dirs p = b.dirs p) : a = b := by
  obtain ⟨af, ad⟩ := a
  obtain ⟨bf, bd⟩ := b
  simp only [FS.mk.injEq]
  exact ⟨funext h1, funext h2⟩

/-- Writing files never touches directories. -/
theorem writeAllFS_dirs : ∀ (l : List (String × Bytes)) (fs : FS),
    (writeAllFS fs l).dirs = fs.dirs := by
  intro l
  induction l with
  | nil => intro fs; rfl
  | cons a t ih =>
    intro fs
    simp only [writeAllFS, List.foldl_cons] at ih ⊢
    rw [ih]
    rfl

/-- A path outside the written list keeps its content. -/
theorem writeAllFS_files_notmem : ∀ (l : List (String × Bytes)) (fs : FS)
    (p : String), p ∉ l.map Prod.fst → (writeAllFS fs l).files p = fs.files p := by
  intro l
  induction l with
  | nil => intro fs p _; rfl
  | cons a t ih =>
    intro fs p hp
    simp only [List.map_cons, List.mem_cons] at hp
    push_neg at hp
    simp only [writeAllFS, List.foldl_cons] at ih ⊢
    rw [ih _ p hp.2]
    simp [FS.writeFile, hp.1]

/-- The content at a written path depends only on the written list. -/
theorem writeAllFS_files_mem_congr : ∀ (l : List (String × Bytes)) (fs gs : FS)
    (p : String), p ∈ l.map Prod.fst →
    (writeAllFS fs l).files p = (writeAllFS gs l).files p := by
  intro l
  induction l with
  | nil => intro fs gs p hp; simp at hp
  | cons a t ih =>
    intro fs gs p hp
    by_cases hmem : p ∈ t.map Prod.fst
    · simp only [writeAllFS, List.foldl_cons] at ih ⊢
      exact ih _ _ p hmem
    · have hpa : p = a.1 := by
        simp only [List.map_cons, List.mem_cons] at hp
        tauto
      simp only [writeAllFS, List.foldl_cons] at ih ⊢
      rw [show t.foldl (fun a pb => FS.writeFile a pb.1 pb.2)
            (FS.writeFile fs a.1 a.2) = writeAllFS (FS.writeFile fs a.1 a.2) t
          from rfl,
        show t.foldl (fun a pb => FS.writeFile a pb.1 pb.2)
            (FS.writeFile gs a.1 a.2) = writeAllFS (FS.writeFile gs a.1 a.2) t
          from rfl,
        writeAllFS_files_notmem t _ p hmem, writeAllFS_files_notmem t _ p hmem]
      simp [FS.writeFile, hpa]

/-- Repeating the same overwrites is a no-op. -/
theorem writeAllFS_idem (fs : FS) (l : List (String × Bytes)) :
    writeAllFS (writeAllFS fs l) l = writeAllFS fs l := by
  refine FS.ext' _ _ (fun p => ?_) (fun p => ?_)
  · by_cases hmem : p ∈ l.map Prod.fst
    · exact writeAllFS_files_mem_congr l _ _ p hmem
    · rw [writeAllFS_files_notmem l _ p hmem]
  · rw [writeAllFS_dirs, writeAllFS_dirs]

/-- With no save failures the icon loop performs exactly the five writes of
`iconOuts` (and raises nothing). -/
theorem genLoop_noerr_fs (env : Env) :
    ∀ (specs : List (String × ℕ × ℚ)) (st : GenState), st.exc = none →
      (∀ spec ∈ specs, env.saveErr ("pwa-assets/" ++ spec.1) = none) →
      (genLoop env specs st).fs
          = writeAllFS st.fs (specs.map (fun spec =>
              ("pwa-assets/" ++ spec.1, iconBytes env st.img spec)))
        ∧ (genLoop env specs st).exc = none := by
  intro specs
  induction specs with
  | nil => intro st h1 _; exact ⟨rfl, h1⟩
  | cons a l ih =>
    intro st h1 hs
    have hsa := hs a (List.mem_cons_self a l)
    have hstep : genIconStep env st a
        = { img := st.img
            fs := st.fs.writeFile ("pwa-assets/" ++ a.1) (iconBytes env st.img a)
            msgs := st.msgs ++ ["Created: " ++ a.1]
            exc := none } := by
      simp [genIconStep, h1, hsa]
    have hrec := ih
      { img := st.img
        fs := st.fs.writeFile ("pwa-assets/" ++ a.1) (iconBytes env st.img a)
        msgs := st.msgs ++ ["Created: " ++ a.1]
        exc := none }
      rfl (fun spec hsp => hs spec (List.mem_cons_of_mem a hsp))
    simp only [genLoop, List.foldl_cons] at hrec ⊢
    rw [hstep]
    simp only [writeAllFS, List.foldl_cons, List.map_cons] at hrec ⊢
    exact hrec

/-- C9: the icon pipeline is deterministic and idempotent at the file level:
with the source present and decodable, no save failures and the source path
distinct from the five output paths, running `generate_pwa_icons` a second
time on the filesystem the first run produced changes nothing - the second
run overwrites each of the five outputs with byte-identical content. -/
theorem pipeline_idempotent_spec (env : Env) (src : String) (fs : FS)
    (bytes : Bytes) (img0 : Img)
    (hf : fs.files src = some bytes)
    (hd : env.decode bytes = Except.ok img0)
    (hsave : ∀ spec ∈ icons, env.saveErr ("pwa-assets/" ++ spec.1) = none)
    (hsrc : src ∉ icons.map (fun spec => "pwa-assets/" ++ spec.1)) :
    (generate_pwa_icons env src ((generate_pwa_icons env src fs).fs)).fs
        = (generate_pwa_icons env src fs).fs
    ∧ ∀ spec ∈ icons,
        (generate_pwa_icons env src ((generate_pwa_icons env src fs).fs)).fs.files
            ("pwa-assets/" ++ spec.1)
          = (generate_pwa_icons env src fs).fs.files ("pwa-assets/" ++ spec.1) := by
  have hkeys : ∀ img : Img, (iconOuts env img).map Prod.fst
      = icons.map (fun spec => "pwa-assets/" ++ spec.1) := by
    intro img
    simp [iconOuts, List.map_map, Function.comp]
  have hrun : ∀ (g : FS), g.files src = some bytes →
      generate_pwa_icons env src g = genAfterOpen env src g img0 := by
    intro g hg
    have hexg : g.exists src = true := by simp [FS.exists, hg]
    simp [generate_pwa_icons, hexg, openImage, hg, hd]
  have hafter : ∀ (g : FS), (genAfterOpen env src g img0).fs
      = writeAllFS (if g.exists "pwa-assets" then g else g.mkdir "pwa-assets")
          (iconOuts env (remove_background_and_inner_holes img0 60)) := by
    intro g
    have h := (genLoop_noerr_fs env icons
      { img := remove_background_and_inner_holes img0 60
        fs := if g.exists "pwa-assets" then g else g.mkdir "pwa-assets"
        msgs := ["Opening " ++ src ++ "...", "Background and Handle removed.",
                 "Generating Transparent Icons..."]
        exc := none } rfl hsave).1
    simpa [genAfterOpen, iconOuts] using h
  have hmkfiles : ∀ (g : FS),
      (if g.exists "pwa-assets" then g else g.mkdir "pwa-assets").files = g.files := by
    intro g
    split
    · rfl
    · rfl
  have hfs1 : (generate_pwa_icons env src fs).fs
      = writeAllFS (if fs.exists "pwa-assets" then fs else fs.mkdir "pwa-assets")
          (iconOuts env (remove_background_and_inner_holes img0 60)) := by
    rw [hrun fs hf, hafter]
  have hsrc2 : (generate_pwa_icons env src fs).fs.files src = some bytes := by
    rw [hfs1, writeAllFS_files_notmem _ _ _ (by rw [hkeys]; exact hsrc), hmkfiles]
    exact hf
  have hdir2 : (generate_pwa_icons env src fs).fs.exists "pwa-assets" = true := by
    rw [hfs1]
    have hnm : "pwa-assets"
        ∉ (iconOuts env (remove_background_and_inner_holes img0 60)).map Prod.fst := by
      rw [hkeys]
      decide
    by_cases hc : fs.exists "pwa-assets"
    · rw [if_pos hc]
      simp only [FS.exists, writeAllFS_files_notmem _ _ _ hnm, writeAllFS_dirs]
      simpa [FS.exists] using hc
    · rw [if_neg hc]
      simp only [FS.exists, writeAllFS_files_notmem _ _ _ hnm, writeAllFS_dirs]
      simp [FS.mkdir]
  have hmain :
      (generate_pwa_icons env src ((generate_pwa_icons env src fs).fs)).fs
        = (generate_pwa_icons env src fs).fs := by
    rw [hrun _ hsrc2, hafter, if_pos hdir2, hfs1, writeAllFS_idem]
  exact ⟨hmain, fun spec _ => by rw [hmain]⟩

/-- C9 witness: the idempotence theorem instantiated on a concrete benign
environment and a filesystem holding just the logo. -/
theorem pipeline_idempotent_spec_witness :
    (generate_pwa_icons envW "Logo.png" ((generate_pwa_icons envW "Logo.png" fsW).fs)).fs
      = (generate_pwa_icons envW "Logo.png" fsW).fs := by
  have h := pipeline_idempotent_spec envW "Logo.png" fsW [0] cimgW rfl rfl
    (fun _ _ => rfl) (by decide)
  exact h.1
